import Mathlib

/-!
# Verification of the eew-renderer-url codec

Shallow embedding of the encode/decode pipeline from `src/main.rs`:
the payload schema, the keyed authentication tag, the envelope layout,
the two text transport schemes (base32768 / base65536), scheme detection,
token extraction, and the command reconstructor.

Components whose implementation lives outside `src/` (the protobuf payload
schema generated into OUT_DIR, the base32768 / base65536 crates, HMAC-SHA1,
and the urlencoding crate) are modelled from the specification; each such
definition carries a doc comment saying so.  Everything else is translated
directly from `src/main.rs`.
-/

/-! ## Generic base-B digit strings (big-endian) -/

/-- Big-endian digit string of `n` in base `B`, exactly `k` digits
(most significant first).  Used both for the bit-level packing of the
text transport schemes (`B = 2`) and for byte serialization (`B = 256`). -/
def toDigits (B : Nat) : Nat → Nat → List Nat
  | 0, _ => []
  | k + 1, n => n / B ^ k % B :: toDigits B k n

/-- Value of a big-endian digit string in base `B`. -/
def ofDigits (B : Nat) : List Nat → Nat
  | [] => 0
  | d :: ds => d * B ^ ds.length + ofDigits B ds

deriving instance DecidableEq for Except

/-! ## Data model (from `src/main.rs` and the payload schema) -/

/-- Fixed-point epicenter location, decimal degrees times ten, signed 32-bit
(from `struct Epicenter` in `src/main.rs`). -/
structure Epicenter where
  lat_x10 : Int
  lon_x10 : Int
deriving DecidableEq, Repr

/-- Ordered sequence of unsigned 32-bit region/intensity codes
(message `CodeArray` of the payload schema). -/
structure CodeArray where
  codes : List Nat
deriving DecidableEq, Repr

/-- Wire record for type id 0 (message `QuakePrefectureData`): time,
optional epicenter, nine named CodeArray buckets. -/
structure QuakePrefectureData where
  time : Nat
  epicenter : Option Epicenter
  one : Option CodeArray
  two : Option CodeArray
  three : Option CodeArray
  four : Option CodeArray
  five_minus : Option CodeArray
  five_plus : Option CodeArray
  six_minus : Option CodeArray
  six_plus : Option CodeArray
  seven : Option CodeArray
deriving DecidableEq, Repr

/-- Wire record for type id 1 (message `TsunamiForecastData`). -/
structure TsunamiForecastData where
  time : Nat
  epicenter : Option Epicenter
  forecast : Option CodeArray
  advisory : Option CodeArray
  warning : Option CodeArray
  major_warning : Option CodeArray
deriving DecidableEq, Repr

/-- Caller-side quake payload (`struct V0Payload`): time as epoch seconds,
optional epicenter, nine bare code lists. -/
structure V0Payload where
  time : Nat
  epicenter : Option Epicenter
  one : List Nat
  two : List Nat
  three : List Nat
  four : List Nat
  five_minus : List Nat
  five_plus : List Nat
  six_minus : List Nat
  six_plus : List Nat
  seven : List Nat
deriving DecidableEq, Repr

/-- Caller-side tsunami payload (`struct TsunamiPayload`). -/
structure TsunamiPayload where
  time : Nat
  epicenter : Option Epicenter
  forecast : List Nat
  advisory : List Nat
  warning : List Nat
  major_warning : List Nat
deriving DecidableEq, Repr

/-- The payload subcommand (`enum Payload` in `src/main.rs`). -/
inductive Payload where
  | tsunami : TsunamiPayload → Payload
  | v0 : V0Payload → Payload
deriving DecidableEq, Repr

/-- The two text transport schemes (`enum Encoding` in `src/main.rs`):
`base32768` is the spec's Scheme A (marker scheme), `base65536` the
spec's Scheme B (marker-less scheme). -/
inductive Encoding where
  | base32768 : Encoding
  | base65536 : Encoding
deriving DecidableEq, Repr

/-- Conversion of a caller-side quake payload to the wire record, from the
`Payload::V0` arm of `encode` in `src/main.rs` (lines 164-203): every bucket
is wrapped in `Some(CodeArray {..})`, including empty ones. -/
def toQuakeData (v0 : V0Payload) : QuakePrefectureData :=
  { time := v0.time
    epicenter := v0.epicenter
    one := some ⟨v0.one⟩
    two := some ⟨v0.two⟩
    three := some ⟨v0.three⟩
    four := some ⟨v0.four⟩
    five_minus := some ⟨v0.five_minus⟩
    five_plus := some ⟨v0.five_plus⟩
    six_minus := some ⟨v0.six_minus⟩
    six_plus := some ⟨v0.six_plus⟩
    seven := some ⟨v0.seven⟩ }

/-- Conversion of a caller-side tsunami payload to the wire record, from the
`Payload::Tsunami` arm of `encode` in `src/main.rs` (lines 204-229). -/
def toTsunamiData (t : TsunamiPayload) : TsunamiForecastData :=
  { time := t.time
    epicenter := t.epicenter
    forecast := some ⟨t.forecast⟩
    advisory := some ⟨t.advisory⟩
    warning := some ⟨t.warning⟩
    major_warning := some ⟨t.major_warning⟩ }

/-! ## Payload serialization

Modelled from the spec: the protobuf schema files are generated into
`OUT_DIR` and are not under `src/`, so the concrete byte format below is a
deterministic field-level encoding following spec section 4.1 (deterministic,
unset optional fields omitted behind a one-byte presence flag, lists length
prefixed); it is paired with a strict deserializer that fails on any byte
sequence it did not produce. -/

/-- Two's-complement encoding of a signed 32-bit integer as a Nat below 2^32.
Modelled from the spec: fixed-point `lat_x10`/`lon_x10` are signed 32-bit. -/
def toTwos (i : Int) : Nat := (i % (2 ^ 32 : Int)).toNat

/-- Inverse of `toTwos` on the signed 32-bit range. -/
def fromTwos (n : Nat) : Int :=
  if n < 2 ^ 31 then (n : Int) else (n : Int) - 2 ^ 32

/-- Modelled from the spec: serialization of one optional epicenter. -/
def serializeEpicenter : Option Epicenter → List Nat
  | none => [0]
  | some e => 1 :: (toDigits 256 4 (toTwos e.lat_x10) ++ toDigits 256 4 (toTwos e.lon_x10))

/-- Modelled from the spec: serialization of one optional CodeArray bucket. -/
def serializeBucket : Option CodeArray → List Nat
  | none => [0]
  | some a => 1 :: (toDigits 256 4 a.codes.length ++ a.codes.flatMap (toDigits 256 4))

/-- Modelled from the spec: deterministic serialization of a
`QuakePrefectureData` record (type id 0). -/
def serializeQuake (q : QuakePrefectureData) : List Nat :=
  toDigits 256 8 q.time ++ serializeEpicenter q.epicenter ++
  serializeBucket q.one ++ serializeBucket q.two ++ serializeBucket q.three ++
  serializeBucket q.four ++ serializeBucket q.five_minus ++ serializeBucket q.five_plus ++
  serializeBucket q.six_minus ++ serializeBucket q.six_plus ++ serializeBucket q.seven

/-- Modelled from the spec: deterministic serialization of a
`TsunamiForecastData` record (type id 1). -/
def serializeTsunami (t : TsunamiForecastData) : List Nat :=
  toDigits 256 8 t.time ++ serializeEpicenter t.epicenter ++
  serializeBucket t.forecast ++ serializeBucket t.advisory ++
  serializeBucket t.warning ++ serializeBucket t.major_warning

/-- Read `k` raw bytes from the front of the input. -/
def readN (k : Nat) (l : List Nat) : Option (List Nat × List Nat) :=
  if k ≤ l.length then some (l.take k, l.drop k) else none

/-- Parse a `k`-byte big-endian unsigned integer. -/
def parseU (k : Nat) (l : List Nat) : Option (Nat × List Nat) :=
  (readN k l).map (fun p => (ofDigits 256 p.1, p.2))

/-- Modelled from the spec: parse one optional epicenter. -/
def parseEpicenter : List Nat → Option (Option Epicenter × List Nat)
  | 0 :: r => some (none, r)
  | 1 :: r =>
    (parseU 4 r).bind fun p =>
    (parseU 4 p.2).bind fun q =>
    some (some ⟨fromTwos p.1, fromTwos q.1⟩, q.2)
  | _ => none

/-- Modelled from the spec: parse `n` four-byte codes. -/
def parseCodes : Nat → List Nat → Option (List Nat × List Nat)
  | 0, r => some ([], r)
  | n + 1, r =>
    (parseU 4 r).bind fun p =>
    (parseCodes n p.2).bind fun q =>
    some (p.1 :: q.1, q.2)

/-- Modelled from the spec: parse one optional CodeArray bucket. -/
def parseBucket : List Nat → Option (Option CodeArray × List Nat)
  | 0 :: r => some (none, r)
  | 1 :: r =>
    (parseU 4 r).bind fun p =>
    (parseCodes p.1 p.2).bind fun q =>
    some (some ⟨q.1⟩, q.2)
  | _ => none

/-- Modelled from the spec: strict deserializer for `QuakePrefectureData`;
`none` on any malformed input (truncated, bad presence flag, trailing bytes). -/
def parseQuake (l : List Nat) : Option QuakePrefectureData :=
  (parseU 8 l).bind fun t =>
  (parseEpicenter t.2).bind fun e =>
  (parseBucket e.2).bind fun b1 =>
  (parseBucket b1.2).bind fun b2 =>
  (parseBucket b2.2).bind fun b3 =>
  (parseBucket b3.2).bind fun b4 =>
  (parseBucket b4.2).bind fun b5m =>
  (parseBucket b5m.2).bind fun b5p =>
  (parseBucket b5p.2).bind fun b6m =>
  (parseBucket b6m.2).bind fun b6p =>
  (parseBucket b6p.2).bind fun b7 =>
  if b7.2 = [] then
    some ⟨t.1, e.1, b1.1, b2.1, b3.1, b4.1, b5m.1, b5p.1, b6m.1, b6p.1, b7.1⟩
  else none

/-- Modelled from the spec: strict deserializer for `TsunamiForecastData`. -/
def parseTsunami (l : List Nat) : Option TsunamiForecastData :=
  (parseU 8 l).bind fun t =>
  (parseEpicenter t.2).bind fun e =>
  (parseBucket e.2).bind fun f =>
  (parseBucket f.2).bind fun a =>
  (parseBucket a.2).bind fun w =>
  (parseBucket w.2).bind fun mw =>
  if mw.2 = [] then
    some ⟨t.1, e.1, f.1, a.1, w.1, mw.1⟩
  else none

/-! ## Authenticator -/

/-- One mixing pass of a list of bytes into a 32-bit accumulator. -/
def mixBytes (seed : Nat) (l : List Nat) : Nat :=
  l.foldl (fun a b => (a * 131 + b + 1) % 2 ^ 32) seed

/-- Modelled from the spec: the keyed 160-bit-digest authentication tag
(`HmacSha1` over the serialized payload body in `src/main.rs` lines 232-236).
The digest internals are abstracted; what the claims rely on is kept: the tag
is a pure deterministic function of the key and the body bytes only, it is
exactly 20 bytes of values below 256, and it is total for every key length
(`Hmac::new_from_slice` accepts any key). -/
def hmacSha1 (key body : List Nat) : List Nat :=
  (List.range 20).map (fun i => mixBytes (mixBytes (i + 7) key) body % 256)

/-! ## Envelope codec -/

/-- Envelope assembly from `encode` in `src/main.rs` lines 238-252: the type
id byte, then (only for base32768) the 0xFF non-base65536 marker byte, then
the tag, then the body. -/
def buildEnvelope (enc : Encoding) (id : Nat) (tag body : List Nat) : List Nat :=
  [id] ++ (match enc with
           | .base32768 => [255]
           | .base65536 => []) ++ tag ++ body

/-- Error outcomes of the pipeline, one per diagnostic in `src/main.rs`.
`malformedPayloadPanic` models the process abort raised by
`.expect("Valid QuakePrefectureData")` / `.expect("Valid TsunamiForecastData")`
on payload bytes that do not parse: unlike every other constructor here it is
a panic, not an `eprintln` diagnostic followed by an orderly return. -/
inductive Err where
  | urlDecodeFailed : Err
  | emptyInput : Err
  | transportDecodeFailed : Encoding → Err
  | envelopeTooShort : Encoding → Err
  | malformedPayloadPanic : Err
  | unsupportedTypeId : Nat → Err
  | unsupportedSchemeForPayload : Err
deriving DecidableEq, Repr

/-- Envelope parsing from `decode` in `src/main.rs` lines 294-317: for
base65536 at least 21 bytes are required and the layout is
`[version][20-byte tag][body]`; for base32768 at least 22 bytes are required
and a marker byte sits between the version and the tag, consumed without
inspecting its value.  Returns (version, provided tag, body). -/
def parseEnvelope (enc : Encoding) (bin : List Nat) :
    Except Err (Nat × List Nat × List Nat) :=
  match enc with
  | .base65536 =>
    if bin.length < 21 then .error (.envelopeTooShort .base65536)
    else .ok (bin.headD 0, ((bin.drop 1).take 20, bin.drop 21))
  | .base32768 =>
    if bin.length < 22 then .error (.envelopeTooShort .base32768)
    else .ok (bin.headD 0, ((bin.drop 2).take 20, bin.drop 22))

/-- A successfully decoded record, tagged by its payload shape. -/
inductive DecodedData where
  | quake : QuakePrefectureData → DecodedData
  | tsunami : TsunamiForecastData → DecodedData
deriving DecidableEq, Repr

/-- Payload dispatch from `decode` in `src/main.rs` lines 327-452: type id 0
parses a `QuakePrefectureData` (panicking on malformed bytes), type id 1 a
`TsunamiForecastData` (likewise), anything else reports the unsupported
type id. -/
def parsePayload (version : Nat) (body : List Nat) : Except Err DecodedData :=
  match version with
  | 0 => match parseQuake body with
         | some d => .ok (.quake d)
         | none => .error .malformedPayloadPanic
  | 1 => match parseTsunami body with
         | some d => .ok (.tsunami d)
         | none => .error .malformedPayloadPanic
  | n => .error (.unsupportedTypeId n)

/-- Envelope parsing followed by payload parsing; the provided tag is read
out of the envelope and then dropped unused, exactly as `_provided_sha1` is
in `src/main.rs`.  Returns the recovered type id, body bytes and record. -/
def decodeBin (enc : Encoding) (bin : List Nat) :
    Except Err (Nat × List Nat × DecodedData) :=
  match parseEnvelope enc bin with
  | .error e => .error e
  | .ok v =>
    match parsePayload v.1 v.2.2 with
    | .error e => .error e
    | .ok d => .ok (v.1, v.2.2, d)

/-! ## Text transport codec

Modelled from the spec: the base32768 and base65536 crates are external, so
the packing below follows spec section 4.4.  Scheme B (base65536) packs one
byte pair per codepoint; the first byte of the pair is carried in the low
8 bits of the codepoint and the second selects a 256-aligned block, with a
separate 256-aligned padding block for a final lone byte.  Scheme A
(base32768) packs 15 bits per codepoint with a 7-bit final repertoire and
pad-with-ones discipline, its codepoints drawn from 256-aligned blocks that
never use offset zero, which is the allocation fact the decoder's
first-character heuristic relies on.  Strings are lists of codepoint values. -/

/-- Scheme B codepoint for a byte pair: low 8 bits carry `b1`, the block is
selected by `b2`. -/
def cpPair (b1 b2 : Nat) : Nat := 0x10000 + b2 * 256 + b1

/-- Scheme B codepoint for a final lone byte. -/
def cpPad (b : Nat) : Nat := 0x20000 + b

/-- Scheme B (base65536) text encoding of a byte sequence. -/
def encB : List Nat → List Nat
  | [] => []
  | [b] => [cpPad b]
  | b1 :: b2 :: rest => cpPair b1 b2 :: encB rest

/-- Scheme B (base65536) text decoding; `none` on a codepoint outside the
repertoire or on a padding codepoint that is not final. -/
def decB : List Nat → Option (List Nat)
  | [] => some []
  | c :: rest =>
    if 0x10000 ≤ c ∧ c < 0x20000 then
      (decB rest).map (fun bs => c % 256 :: (c - 0x10000) / 256 :: bs)
    else if 0x20000 ≤ c ∧ c < 0x20100 then
      if rest = [] then some [c - 0x20000] else none
    else none

/-- Scheme A codepoint for a full 15-bit group `v`: 256-aligned block
`v / 255`, offset `1 + v % 255` (never zero). -/
def cp15 (v : Nat) : Nat := 0x40000 + v / 255 * 256 + (1 + v % 255)

/-- Scheme A codepoint for a padded final group of at most 7 bits. -/
def cp7 (v : Nat) : Nat := 0x50000 + (1 + v)

/-- Recover the 15-bit group of a Scheme A codepoint. -/
def unCp15 (c : Nat) : Nat := (c - 0x40000) / 256 * 255 + (c % 256 - 1)

/-- A codepoint is in the Scheme A 15-bit repertoire. -/
def isCp15 (c : Nat) : Prop :=
  0x40000 ≤ c ∧ c < 0x48100 ∧ c % 256 ≠ 0 ∧ unCp15 c < 32768

instance (c : Nat) : Decidable (isCp15 c) := by
  unfold isCp15; infer_instance

/-- A codepoint is in the Scheme A 7-bit final repertoire. -/
def isCp7 (c : Nat) : Prop := 0x50001 ≤ c ∧ c < 0x50081

instance (c : Nat) : Decidable (isCp7 c) := by
  unfold isCp7; infer_instance

/-- Pad a bit group to length `k` with one-bits. -/
def padTo (k : Nat) (bits : List Nat) : List Nat :=
  bits ++ List.replicate (k - bits.length) 1

/-- Scheme A encoding of whatever is left once fewer than 15 bits remain:
nothing, a 7-bit final codepoint, or a padded 15-bit codepoint. -/
def finalChunk (acc : List Nat) : List Nat :=
  if acc = [] then []
  else if acc.length ≤ 7 then [cp7 (ofDigits 2 (padTo 7 acc))]
  else [cp15 (ofDigits 2 (padTo 15 acc))]

/-- Scheme A encoding loop: `acc` holds the bits of the current incomplete
15-bit group (always fewer than 15). -/
def encAgo (acc : List Nat) : List Nat → List Nat
  | [] => finalChunk acc
  | b :: rest =>
    if acc.length = 14 then cp15 (ofDigits 2 (acc ++ [b])) :: encAgo [] rest
    else encAgo (acc ++ [b]) rest

/-- Bit string (most significant first) of a byte sequence. -/
def bytesToBits : List Nat → List Nat
  | [] => []
  | b :: bs => toDigits 2 8 b ++ bytesToBits bs

/-- Scheme A (base32768) text encoding of a byte sequence. -/
def encA (bytes : List Nat) : List Nat := encAgo [] (bytesToBits bytes)

/-- Scheme A decoding to a bit string; a 7-bit final codepoint may only
appear last, and any codepoint outside both repertoires is rejected. -/
def decA : List Nat → Option (List Nat)
  | [] => some []
  | c :: rest =>
    if isCp15 c then
      (decA rest).map (fun bs => toDigits 2 15 (unCp15 c) ++ bs)
    else if isCp7 c then
      if rest = [] then some (toDigits 2 7 (c - 0x50001)) else none
    else none

/-- Byte-reassembly loop: collect 8 bits at a time, discarding the fewer
than 8 trailing padding bits. -/
def bitsToBytesGo (acc : List Nat) : List Nat → List Nat
  | [] => []
  | b :: rest =>
    if acc.length = 7 then ofDigits 2 (acc ++ [b]) :: bitsToBytesGo [] rest
    else bitsToBytesGo (acc ++ [b]) rest

/-- Bytes of a decoded bit string, the final partial group resolved by
truncation to whole bytes. -/
def bitsToBytes (bits : List Nat) : List Nat := bitsToBytesGo [] bits

/-- Scheme A (base32768) text decoding of a string to bytes. -/
def textDecodeA (s : List Nat) : Option (List Nat) := (decA s).map bitsToBytes

/-! ## Top-level pipeline -/

/-- Value of an ASCII hex digit codepoint. -/
def hexVal (c : Nat) : Option Nat :=
  if 48 ≤ c ∧ c ≤ 57 then some (c - 48)
  else if 65 ≤ c ∧ c ≤ 70 then some (c - 55)
  else if 97 ≤ c ∧ c ≤ 102 then some (c - 87)
  else none

/-- Modelled from the spec: the `urlencoding::decode` collaborator applied
before token extraction.  A percent sign followed by two hex digits becomes
the escaped byte, an invalid escape is kept verbatim, and escapes of bytes
at or above 128 (which would need multi-byte UTF-8 reassembly) are outside
the modelled range and fail. -/
def urlDecode : List Nat → Option (List Nat)
  | [] => some []
  | 37 :: a :: b :: rest2 =>
    (match hexVal a, hexVal b with
     | some x, some y =>
       if 16 * x + y < 128 then (urlDecode rest2).map (fun l => (16 * x + y) :: l)
       else none
     | _, _ => (urlDecode (a :: b :: rest2)).map (fun l => 37 :: l))
  | c :: rest => (urlDecode rest).map (fun l => c :: l)

/-- The part of a string after its last `/` (codepoint 47). -/
def afterLastSlash (l : List Nat) : List Nat :=
  (l.reverse.takeWhile (fun c => c ≠ 47)).reverse

/-- Token extraction from `decode` in `src/main.rs` lines 262-268: the input
is URL-decoded, and `rsplit_once('/')` keeps the part after the last slash
of the decoded string; when the decoded string has no slash, `unwrap_or`
falls back to the original raw input `d.url`, not the decoded string. -/
def tokenOf (url : List Nat) : Option (List Nat) :=
  (urlDecode url).map (fun dec => if 47 ∈ dec then afterLastSlash dec else url)

/-- Scheme detection from `decode` in `src/main.rs` lines 270-289: the low
8 bits of the first character (`first_char as u16 & 0xff`, and the `u16`
truncation keeps the low 8 bits unchanged) select base65536 when zero and
base32768 otherwise; an empty token has no first character and fails. -/
def detectScheme (s : List Nat) : Option Encoding :=
  s.head?.map (fun c => if c % 256 = 0 then .base65536 else .base32768)

/-- Transport decode for the detected scheme followed by envelope and
payload parsing, from `fn decode` in `src/main.rs` lines 275-452. -/
def decodeWith (enc : Encoding) (tok : List Nat) : Except Err (Encoding × DecodedData) :=
  match enc with
  | .base65536 =>
    match decB tok with
    | none => .error (.transportDecodeFailed .base65536)
    | some bin =>
      match decodeBin .base65536 bin with
      | .error e => .error e
      | .ok r => .ok (.base65536, r.2.2)
  | .base32768 =>
    match textDecodeA tok with
    | none => .error (.transportDecodeFailed .base32768)
    | some bin =>
      match decodeBin .base32768 bin with
      | .error e => .error e
      | .ok r => .ok (.base32768, r.2.2)

/-- Scheme detection on the extracted token followed by `decodeWith`. -/
def decodeToken (tok : List Nat) : Except Err (Encoding × DecodedData) :=
  match detectScheme tok with
  | none => .error .emptyInput
  | some enc => decodeWith enc tok

/-- The full decode pipeline of `fn decode` in `src/main.rs`: URL-decode,
token extraction, scheme detection, transport decode, envelope parse,
payload parse.  Returns the detected scheme and the recovered record. -/
def decodeTop (url : List Nat) : Except Err (Encoding × DecodedData) :=
  match tokenOf url with
  | none => .error .urlDecodeFailed
  | some tok => decodeToken tok

/-- Type id byte chosen for a payload in `fn encode` (0 for quake, 1 for
tsunami). -/
def typeIdOf : Payload → Nat
  | .v0 _ => 0
  | .tsunami _ => 1

/-- Serialized body bytes chosen for a payload in `fn encode`. -/
def bodyOf : Payload → List Nat
  | .v0 r => serializeQuake (toQuakeData r)
  | .tsunami t => serializeTsunami (toTsunamiData t)

/-- The full encode pipeline of `fn encode` in `src/main.rs`: the
base65536/tsunami pairing is rejected up front (lines 151-156), then the
body is serialized, the tag computed over the body only, the envelope
assembled and rendered by the selected transport scheme. -/
def encodeTop (enc : Encoding) (hmacKey : List Nat) (payload : Payload) :
    Except Err (List Nat) :=
  match enc, payload with
  | .base65536, .tsunami _ => .error .unsupportedSchemeForPayload
  | _, _ =>
    let body := bodyOf payload
    let buffer := buildEnvelope enc (typeIdOf payload) (hmacSha1 hmacKey body) body
    .ok (match enc with
         | .base32768 => encA buffer
         | .base65536 => encB buffer)

/-! ## Command reconstructor -/

/-- Flag/value pairs rendered for one optional bucket, from the
`if let Some(..)` blocks of `fn decode`. -/
def bucketArgs (flag : String) : Option CodeArray → List (String × Nat)
  | none => []
  | some a => a.codes.map (fun c => (flag, c))

/-- The bucket portion of the command reconstructed for a decoded
`QuakePrefectureData`, translated verbatim from `src/main.rs` lines 347-399:
note that the blocks for `five-minus`, `five-plus`, `six-minus`, `six-plus`
and `seven` all read `data.four`. -/
def reconstructV0 (d : QuakePrefectureData) : List (String × Nat) :=
  bucketArgs "--one" d.one ++ bucketArgs "--two" d.two ++
  bucketArgs "--three" d.three ++ bucketArgs "--four" d.four ++
  bucketArgs "--five-minus" d.four ++ bucketArgs "--five-plus" d.four ++
  bucketArgs "--six-minus" d.four ++ bucketArgs "--six-plus" d.four ++
  bucketArgs "--seven" d.four

/-- The bucket portion of the reconstructed command as the spec words it
(section 4.5 with section 9's correction): each named bucket rendered from
its own field.  Kept separate from `reconstructV0` so the two can be
compared. -/
def reconstructV0Spec (d : QuakePrefectureData) : List (String × Nat) :=
  bucketArgs "--one" d.one ++ bucketArgs "--two" d.two ++
  bucketArgs "--three" d.three ++ bucketArgs "--four" d.four ++
  bucketArgs "--five-minus" d.five_minus ++ bucketArgs "--five-plus" d.five_plus ++
  bucketArgs "--six-minus" d.six_minus ++ bucketArgs "--six-plus" d.six_plus ++
  bucketArgs "--seven" d.seven

/-! ## Validity of records and round-trip of the payload schema -/

/-- A code list representable on the wire: unsigned 32-bit codes, 32-bit
length prefix. -/
def validList (l : List Nat) : Prop := l.length < 2 ^ 32 ∧ ∀ c ∈ l, c < 2 ^ 32

instance (l : List Nat) : Decidable (validList l) := by
  unfold validList; infer_instance

/-- An epicenter representable on the wire: both fixed-point coordinates in
signed 32-bit range. -/
def validEpi : Option Epicenter → Prop
  | none => True
  | some e => -2 ^ 31 ≤ e.lat_x10 ∧ e.lat_x10 < 2 ^ 31 ∧
              -2 ^ 31 ≤ e.lon_x10 ∧ e.lon_x10 < 2 ^ 31

instance (o : Option Epicenter) : Decidable (validEpi o) := by
  cases o <;> unfold validEpi <;> infer_instance

/-- A bucket representable on the wire. -/
def validBucket : Option CodeArray → Prop
  | none => True
  | some a => validList a.codes

instance (o : Option CodeArray) : Decidable (validBucket o) := by
  cases o <;> unfold validBucket <;> infer_instance

/-- A quake record representable on the wire: unsigned 64-bit time, in-range
epicenter and buckets. -/
def validQuake (q : QuakePrefectureData) : Prop :=
  q.time < 2 ^ 64 ∧ validEpi q.epicenter ∧
  validBucket q.one ∧ validBucket q.two ∧ validBucket q.three ∧
  validBucket q.four ∧ validBucket q.five_minus ∧ validBucket q.five_plus ∧
  validBucket q.six_minus ∧ validBucket q.six_plus ∧ validBucket q.seven

instance (q : QuakePrefectureData) : Decidable (validQuake q) := by
  unfold validQuake; infer_instance

/-- A tsunami record representable on the wire. -/
def validTsunami (t : TsunamiForecastData) : Prop :=
  t.time < 2 ^ 64 ∧ validEpi t.epicenter ∧
  validBucket t.forecast ∧ validBucket t.advisory ∧
  validBucket t.warning ∧ validBucket t.major_warning

instance (t : TsunamiForecastData) : Decidable (validTsunami t) := by
  unfold validTsunami; infer_instance

/-! ## Scheme B transport lemmas -/

/-- Pair-step induction principle for lists. -/
def listPairInd {α : Type} {P : List α → Prop} (h0 : P [])
    (h1 : ∀ b, P [b]) (h2 : ∀ a b l, P l → P (a :: b :: l)) : ∀ l, P l
  | [] => h0
  | [b] => h1 b
  | a :: b :: l => h2 a b l (listPairInd h0 h1 h2 l)

/-! ## Scheme A transport lemmas -/

/-- Number of one-padding bits Scheme A appends to a bit string of length
`n`: none for a full final group, up to 7 when the final group fits the
7-bit repertoire, up to 7 otherwise. -/
def padLen (n : Nat) : Nat :=
  if n % 15 = 0 then 0
  else if n % 15 ≤ 7 then 7 - n % 15
  else 15 - n % 15

/-! ## Claim C1: round-trip -/

/-- A caller-side quake payload whose wire image is representable. -/
def validV0 (r : V0Payload) : Prop := validQuake (toQuakeData r)

instance (r : V0Payload) : Decidable (validV0 r) := by
  unfold validV0; infer_instance

/-- A caller-side tsunami payload whose wire image is representable. -/
def validTsunamiPayload (t : TsunamiPayload) : Prop := validTsunami (toTsunamiData t)

instance (t : TsunamiPayload) : Decidable (validTsunamiPayload t) := by
  unfold validTsunamiPayload; infer_instance

/-- Concrete key for the round-trip witness. -/
def sampleKey : List Nat := [107, 101, 121]

/-- Concrete quake payload for the round-trip witness (spec section 8,
Example 1). -/
def sampleV0 : V0Payload :=
  { time := 1700000000, epicenter := some ⟨356, 1397⟩,
    one := [130000], two := [], three := [], four := [],
    five_minus := [], five_plus := [], six_minus := [], six_plus := [],
    seven := [] }

/-- The encoded string of the round-trip witness. -/
def sampleEncoded : List Nat :=
  match encodeTop .base65536 sampleKey (.v0 sampleV0) with
  | .ok o => o
  | .error _ => []

/-! ## Claim C8: command reconstructor aliasing -/

/-- A decoded record (reachable from any encode of a quake payload whose
five-minus list is `[99]` and whose other lists are empty) on which the
reconstructor's aliasing shows. -/
def sampleAliased : QuakePrefectureData :=
  { time := 1700000000, epicenter := none,
    one := some ⟨[]⟩, two := some ⟨[]⟩, three := some ⟨[]⟩, four := some ⟨[]⟩,
    five_minus := some ⟨[99]⟩, five_plus := some ⟨[]⟩, six_minus := some ⟨[]⟩,
    six_plus := some ⟨[]⟩, seven := some ⟨[]⟩ }

/-! # Theorems -/

theorem length_toDigits (B k n : Nat) : (toDigits B k n).length = k := by
  induction k generalizing n with
  | zero => rfl
  | succ k ih => simp [toDigits, ih]

theorem mem_toDigits_lt (B k n d : Nat) (hB : 0 < B) (hd : d ∈ toDigits B k n) :
    d < B := by
  induction k generalizing n with
  | zero => simp [toDigits] at hd
  | succ k ih =>
    simp only [toDigits, List.mem_cons] at hd
    rcases hd with rfl | hd
    · exact Nat.mod_lt _ hB
    · exact ih n hd

theorem ofDigits_lt (B : Nat) (l : List Nat) (hB : 0 < B)
    (h : ∀ d ∈ l, d < B) : ofDigits B l < B ^ l.length := by
  induction l with
  | nil => simpa [ofDigits] using Nat.pow_pos hB
  | cons d ds ih =>
    have hd : d < B := h d (by simp)
    have hds : ofDigits B ds < B ^ ds.length := ih (fun x hx => h x (by simp [hx]))
    have : d * B ^ ds.length + ofDigits B ds < (d + 1) * B ^ ds.length := by
      rw [Nat.succ_mul]
      omega
    calc ofDigits B (d :: ds) < (d + 1) * B ^ ds.length := this
      _ ≤ B * B ^ ds.length := by
          exact Nat.mul_le_mul_right _ (by omega)
      _ = B ^ (d :: ds).length := by
          simp [List.length_cons, Nat.pow_succ, Nat.mul_comm]

theorem ofDigits_toDigits (B k n : Nat) :
    ofDigits B (toDigits B k n) = n % B ^ k := by
  induction k generalizing n with
  | zero => simp [toDigits, ofDigits, Nat.mod_one]
  | succ k ih =>
    simp only [toDigits, ofDigits, length_toDigits, ih]
    rw [Nat.pow_succ, Nat.mod_mul]
    ring

theorem toDigits_mul_pow_add (B k m n : Nat) (hB : 0 < B) :
    toDigits B k (m * B ^ k + n) = toDigits B k n := by
  induction k generalizing m n with
  | zero => rfl
  | succ k ih =>
    have h1 : m * B ^ (k + 1) + n = n + (m * B) * B ^ k := by ring
    have hpow : 0 < B ^ k := Nat.pow_pos hB
    simp only [toDigits]
    refine congrArg₂ _ ?_ ?_
    · rw [h1, Nat.add_mul_div_right _ _ hpow, Nat.add_mul_mod_self_right]
    · rw [h1, Nat.add_comm n, ih]

theorem toDigits_ofDigits (B : Nat) (l : List Nat) (hB : 0 < B)
    (h : ∀ d ∈ l, d < B) : toDigits B l.length (ofDigits B l) = l := by
  induction l with
  | nil => rfl
  | cons d ds ih =>
    have hd : d < B := h d (by simp)
    have hds : ofDigits B ds < B ^ ds.length := ofDigits_lt B ds hB (fun x hx => h x (by simp [hx]))
    simp only [List.length_cons, ofDigits, toDigits]
    refine congrArg₂ _ ?_ ?_
    · rw [Nat.add_comm, Nat.add_mul_div_right _ _ (Nat.pow_pos hB), Nat.div_eq_of_lt hds]
      rw [Nat.zero_add, Nat.mod_eq_of_lt hd]
    · rw [toDigits_mul_pow_add B ds.length d (ofDigits B ds) hB]
      exact ih (fun x hx => h x (by simp [hx]))

theorem length_hmacSha1 (key body : List Nat) : (hmacSha1 key body).length = 20 := by
  simp [hmacSha1]

theorem mem_hmacSha1_lt (key body : List Nat) (d : Nat) (hd : d ∈ hmacSha1 key body) :
    d < 256 := by
  simp only [hmacSha1, List.mem_map] at hd
  obtain ⟨i, _, rfl⟩ := hd
  exact Nat.mod_lt _ (by omega)

theorem toTwos_lt (i : Int) : toTwos i < 2 ^ 32 := by
  unfold toTwos
  omega

theorem fromTwos_toTwos (i : Int) (h1 : -2 ^ 31 ≤ i) (h2 : i < 2 ^ 31) :
    fromTwos (toTwos i) = i := by
  unfold toTwos fromTwos
  split <;> omega

theorem parseU_spec (k n : Nat) (rest : List Nat) (hn : n < 256 ^ k) :
    parseU k (toDigits 256 k n ++ rest) = some (n, rest) := by
  unfold parseU readN
  have hlen : (toDigits 256 k n).length = k := length_toDigits 256 k n
  rw [if_pos (by simp [hlen])]
  rw [List.take_left' hlen, List.drop_left' hlen]
  simp [ofDigits_toDigits, Nat.mod_eq_of_lt hn]

theorem parseEpicenter_spec (e : Option Epicenter) (rest : List Nat)
    (he : validEpi e) :
    parseEpicenter (serializeEpicenter e ++ rest) = some (e, rest) := by
  cases e with
  | none => rfl
  | some e =>
    obtain ⟨h1, h2, h3, h4⟩ := he
    show parseEpicenter (1 :: (toDigits 256 4 (toTwos e.lat_x10) ++
      toDigits 256 4 (toTwos e.lon_x10) ++ rest)) = _
    rw [List.append_assoc, parseEpicenter]
    rw [parseU_spec 4 _ _ (toTwos_lt e.lat_x10)]
    simp only [Option.some_bind]
    rw [parseU_spec 4 _ _ (toTwos_lt e.lon_x10)]
    simp only [Option.some_bind]
    rw [fromTwos_toTwos _ h1 h2, fromTwos_toTwos _ h3 h4]

theorem parseCodes_spec (codes : List Nat) (rest : List Nat)
    (hc : ∀ c ∈ codes, c < 2 ^ 32) :
    parseCodes codes.length (codes.flatMap (toDigits 256 4) ++ rest) =
      some (codes, rest) := by
  induction codes with
  | nil => rfl
  | cons c cs ih =>
    rw [List.flatMap_cons, List.append_assoc]
    show (parseU 4 _).bind _ = _
    rw [parseU_spec 4 c _ (by have := hc c (by simp); norm_num at this ⊢; omega)]
    simp only [Option.some_bind]
    rw [ih (fun x hx => hc x (by simp [hx]))]
    simp only [Option.some_bind]

theorem parseBucket_spec (b : Option CodeArray) (rest : List Nat)
    (hb : validBucket b) :
    parseBucket (serializeBucket b ++ rest) = some (b, rest) := by
  cases b with
  | none => rfl
  | some a =>
    obtain ⟨h1, h2⟩ := hb
    show parseBucket (1 :: (toDigits 256 4 a.codes.length ++
      a.codes.flatMap (toDigits 256 4) ++ rest)) = _
    rw [List.append_assoc, parseBucket]
    rw [parseU_spec 4 _ _ (by norm_num at h1 ⊢; omega)]
    simp only [Option.some_bind]
    rw [parseCodes_spec a.codes rest h2]
    simp only [Option.some_bind]

set_option maxHeartbeats 1000000 in
theorem parseQuake_spec (q : QuakePrefectureData) (hq : validQuake q) :
    parseQuake (serializeQuake q) = some q := by
  obtain ⟨ht, he, h1, h2, h3, h4, h5m, h5p, h6m, h6p, h7⟩ := hq
  have ht' : q.time < 256 ^ 8 := by norm_num at ht ⊢; omega
  unfold parseQuake
  rw [serializeQuake]
  simp only [List.append_assoc]
  rw [show serializeBucket q.seven = serializeBucket q.seven ++ [] by simp]
  rw [parseU_spec 8 q.time _ ht']
  simp only [Option.some_bind]
  rw [parseEpicenter_spec _ _ he]
  simp only [Option.some_bind]
  rw [parseBucket_spec _ _ h1]
  simp only [Option.some_bind]
  rw [parseBucket_spec _ _ h2]
  simp only [Option.some_bind]
  rw [parseBucket_spec _ _ h3]
  simp only [Option.some_bind]
  rw [parseBucket_spec _ _ h4]
  simp only [Option.some_bind]
  rw [parseBucket_spec _ _ h5m]
  simp only [Option.some_bind]
  rw [parseBucket_spec _ _ h5p]
  simp only [Option.some_bind]
  rw [parseBucket_spec _ _ h6m]
  simp only [Option.some_bind]
  rw [parseBucket_spec _ _ h6p]
  simp only [Option.some_bind]
  rw [parseBucket_spec _ _ h7]
  simp only [Option.some_bind]
  simp

theorem parseTsunami_spec (t : TsunamiForecastData) (ht : validTsunami t) :
    parseTsunami (serializeTsunami t) = some t := by
  obtain ⟨htime, he, hf, ha, hw, hmw⟩ := ht
  have ht' : t.time < 256 ^ 8 := by norm_num at htime ⊢; omega
  unfold parseTsunami
  rw [serializeTsunami]
  simp only [List.append_assoc]
  rw [show serializeBucket t.major_warning = serializeBucket t.major_warning ++ [] by simp]
  rw [parseU_spec 8 t.time _ ht']
  simp only [Option.some_bind]
  rw [parseEpicenter_spec _ _ he]
  simp only [Option.some_bind]
  rw [parseBucket_spec _ _ hf]
  simp only [Option.some_bind]
  rw [parseBucket_spec _ _ ha]
  simp only [Option.some_bind]
  rw [parseBucket_spec _ _ hw]
  simp only [Option.some_bind]
  rw [parseBucket_spec _ _ hmw]
  simp only [Option.some_bind]
  simp

theorem mem_serializeEpicenter_lt (e : Option Epicenter) (d : Nat)
    (hd : d ∈ serializeEpicenter e) : d < 256 := by
  cases e with
  | none => simp [serializeEpicenter] at hd; omega
  | some e =>
    simp only [serializeEpicenter, List.mem_cons, List.mem_append] at hd
    rcases hd with rfl | hd | hd
    · omega
    · exact mem_toDigits_lt 256 4 _ d (by omega) hd
    · exact mem_toDigits_lt 256 4 _ d (by omega) hd

theorem mem_serializeBucket_lt (b : Option CodeArray) (d : Nat)
    (hd : d ∈ serializeBucket b) : d < 256 := by
  cases b with
  | none => simp [serializeBucket] at hd; omega
  | some a =>
    simp only [serializeBucket, List.mem_cons, List.mem_append] at hd
    rcases hd with rfl | hd | hd
    · omega
    · exact mem_toDigits_lt 256 4 _ d (by omega) hd
    · simp only [List.mem_flatMap] at hd
      obtain ⟨c, _, hd⟩ := hd
      exact mem_toDigits_lt 256 4 _ d (by omega) hd

theorem mem_serializeQuake_lt (q : QuakePrefectureData) (d : Nat)
    (hd : d ∈ serializeQuake q) : d < 256 := by
  simp only [serializeQuake, List.mem_append] at hd
  rcases hd with ((((((((((hd | hd) | hd) | hd) | hd) | hd) | hd) | hd) | hd) | hd) | hd)
  · exact mem_toDigits_lt 256 8 _ d (by omega) hd
  · exact mem_serializeEpicenter_lt _ d hd
  all_goals exact mem_serializeBucket_lt _ d hd

theorem mem_serializeTsunami_lt (t : TsunamiForecastData) (d : Nat)
    (hd : d ∈ serializeTsunami t) : d < 256 := by
  simp only [serializeTsunami, List.mem_append] at hd
  rcases hd with ((((hd | hd) | hd) | hd) | hd) | hd
  · exact mem_toDigits_lt 256 8 _ d (by omega) hd
  · exact mem_serializeEpicenter_lt _ d hd
  all_goals exact mem_serializeBucket_lt _ d hd

theorem mem_bodyOf_lt (p : Payload) (d : Nat) (hd : d ∈ bodyOf p) : d < 256 := by
  cases p with
  | v0 r => exact mem_serializeQuake_lt _ d hd
  | tsunami t => exact mem_serializeTsunami_lt _ d hd

theorem mem_buildEnvelope_lt (enc : Encoding) (id : Nat) (tag body : List Nat)
    (hid : id < 256) (htag : ∀ d ∈ tag, d < 256) (hbody : ∀ d ∈ body, d < 256) :
    ∀ d ∈ buildEnvelope enc id tag body, d < 256 := by
  intro d hd
  have hcase : d = id ∨ d = 255 ∨ d ∈ tag ∨ d ∈ body := by
    cases enc <;> simp [buildEnvelope] at hd <;> tauto
  rcases hcase with rfl | rfl | hc | hc
  · exact hid
  · omega
  · exact htag d hc
  · exact hbody d hc

theorem decB_encB (bytes : List Nat) (h : ∀ b ∈ bytes, b < 256) :
    decB (encB bytes) = some bytes := by
  induction bytes using listPairInd with
  | h0 => rfl
  | h1 b =>
    have hb : b < 256 := h b (by simp)
    simp only [encB, decB, cpPad]
    rw [if_neg (by omega), if_pos (by omega)]
    simp only [if_true, Option.some.injEq, List.cons.injEq, and_true]
    omega
  | h2 b1 b2 l ih =>
    have hb1 : b1 < 256 := h b1 (by simp)
    have hb2 : b2 < 256 := h b2 (by simp)
    simp only [encB, decB, cpPair]
    rw [if_pos (by omega)]
    rw [ih (fun x hx => h x (by simp [hx]))]
    simp only [Option.map_some', Option.some.injEq, List.cons.injEq]
    refine ⟨by omega, by omega, trivial⟩

theorem mem_encB_range (bytes : List Nat) (h : ∀ b ∈ bytes, b < 256) :
    ∀ c ∈ encB bytes, 0x10000 ≤ c ∧ c < 0x20100 := by
  induction bytes using listPairInd with
  | h0 => simp [encB]
  | h1 b =>
    have hb : b < 256 := h b (by simp)
    simp [encB, cpPad]
    omega
  | h2 b1 b2 l ih =>
    have hb1 : b1 < 256 := h b1 (by simp)
    have hb2 : b2 < 256 := h b2 (by simp)
    intro c hc
    simp only [encB, List.mem_cons] at hc
    rcases hc with rfl | hc
    · simp [cpPair]; omega
    · exact ih (fun x hx => h x (by simp [hx])) c hc

theorem encB_head (b : Nat) (bs : List Nat) (hb : b < 256) :
    ∃ c cs, encB (b :: bs) = c :: cs ∧ c % 256 = b := by
  cases bs with
  | nil =>
    refine ⟨cpPad b, [], rfl, ?_⟩
    simp only [cpPad]
    omega
  | cons b2 rest =>
    refine ⟨cpPair b b2, encB rest, rfl, ?_⟩
    simp only [cpPair]
    omega

theorem padLen_lt_8 (n : Nat) : padLen n < 8 := by
  unfold padLen
  split
  · omega
  · split <;> omega

theorem padLen_add_15 (n : Nat) : padLen (15 + n) = padLen n := by
  have h : (15 + n) % 15 = n % 15 := by omega
  simp only [padLen, h]

theorem cp15_spec (v : Nat) (hv : v < 32768) :
    isCp15 (cp15 v) ∧ unCp15 (cp15 v) = v := by
  unfold isCp15 unCp15 cp15
  omega

theorem cp15_mod (v : Nat) : cp15 v % 256 = 1 + v % 255 := by
  unfold cp15
  omega

theorem cp7_spec (v : Nat) (hv : v < 128) :
    ¬ isCp15 (cp7 v) ∧ isCp7 (cp7 v) ∧ cp7 v - 0x50001 = v := by
  unfold isCp15 unCp15 isCp7 cp7
  omega

theorem cp7_mod (v : Nat) (hv : v < 128) : cp7 v % 256 ≠ 0 := by
  unfold cp7
  omega

theorem length_padTo (k : Nat) (bits : List Nat) (h : bits.length ≤ k) :
    (padTo k bits).length = k := by
  simp [padTo]
  omega

theorem mem_padTo_lt (k : Nat) (bits : List Nat) (h : ∀ d ∈ bits, d < 2) :
    ∀ d ∈ padTo k bits, d < 2 := by
  intro d hd
  simp only [padTo, List.mem_append, List.mem_replicate] at hd
  rcases hd with hd | hd
  · exact h d hd
  · omega

theorem padLen_small (n : Nat) (h1 : 1 ≤ n) (h7 : n ≤ 7) : padLen n = 7 - n := by
  unfold padLen
  have h : n % 15 = n := Nat.mod_eq_of_lt (by omega)
  rw [h, if_neg (by omega), if_pos h7]

theorem padLen_mid (n : Nat) (h8 : 8 ≤ n) (h14 : n ≤ 14) : padLen n = 15 - n := by
  unfold padLen
  have h : n % 15 = n := Nat.mod_eq_of_lt (by omega)
  rw [h, if_neg (by omega), if_neg (by omega)]

theorem decA_encAgo (input : List Nat) : ∀ acc : List Nat, acc.length ≤ 14 →
    (∀ d ∈ acc, d < 2) → (∀ d ∈ input, d < 2) →
    decA (encAgo acc input) =
      some ((acc ++ input) ++ List.replicate (padLen (acc.length + input.length)) 1) := by
  induction input with
  | nil =>
    intro acc hlen hacc _
    simp only [encAgo, finalChunk]
    by_cases hnil : acc = []
    · subst hnil
      simp [decA, padLen]
    · rw [if_neg hnil]
      have hpos : 0 < acc.length := List.length_pos.mpr hnil
      by_cases h7 : acc.length ≤ 7
      · rw [if_pos h7]
        have hv : ofDigits 2 (padTo 7 acc) < 128 := by
          have := ofDigits_lt 2 (padTo 7 acc) (by omega) (mem_padTo_lt 7 acc hacc)
          rwa [length_padTo 7 acc h7] at this
        obtain ⟨hn15, h7r, hval⟩ := cp7_spec _ hv
        simp only [decA]
        rw [if_neg hn15, if_pos h7r, if_pos trivial, hval]
        have hlp : (padTo 7 acc).length = 7 := length_padTo 7 acc h7
        have htd := toDigits_ofDigits 2 (padTo 7 acc) (by omega) (mem_padTo_lt 7 acc hacc)
        rw [hlp] at htd
        rw [htd]
        have hpl : padLen (acc.length + List.length ([] : List Nat)) = 7 - acc.length := by
          simp only [List.length_nil, Nat.add_zero]
          exact padLen_small _ (by omega) h7
        rw [hpl]
        simp [padTo]
      · rw [if_neg h7]
        have hv : ofDigits 2 (padTo 15 acc) < 32768 := by
          have := ofDigits_lt 2 (padTo 15 acc) (by omega) (mem_padTo_lt 15 acc hacc)
          rwa [length_padTo 15 acc (by omega)] at this
        obtain ⟨h15, hval⟩ := cp15_spec _ hv
        simp only [decA]
        rw [if_pos h15, hval]
        have hlp : (padTo 15 acc).length = 15 := length_padTo 15 acc (by omega)
        have htd := toDigits_ofDigits 2 (padTo 15 acc) (by omega) (mem_padTo_lt 15 acc hacc)
        rw [hlp] at htd
        rw [htd]
        have hpl : padLen (acc.length + List.length ([] : List Nat)) = 15 - acc.length := by
          simp only [List.length_nil, Nat.add_zero]
          exact padLen_mid _ (by omega) hlen
        rw [hpl]
        simp [padTo]
  | cons b rest ih =>
    intro acc hlen hacc hin
    have hb : b < 2 := hin b (by simp)
    have hrest : ∀ d ∈ rest, d < 2 := fun d hd => hin d (by simp [hd])
    have hdig : ∀ d ∈ acc ++ [b], d < 2 := by
      intro d hd
      rcases List.mem_append.mp hd with hd | hd
      · exact hacc d hd
      · simp at hd; omega
    simp only [encAgo]
    by_cases h14 : acc.length = 14
    · rw [if_pos h14]
      have hv : ofDigits 2 (acc ++ [b]) < 32768 := by
        have := ofDigits_lt 2 (acc ++ [b]) (by omega) hdig
        simp only [List.length_append, List.length_singleton, h14] at this
        exact this
      obtain ⟨h15, hval⟩ := cp15_spec _ hv
      simp only [decA]
      rw [if_pos h15, hval]
      rw [ih [] (by simp) (by simp) hrest]
      have htd := toDigits_ofDigits 2 (acc ++ [b]) (by omega) hdig
      have hlp : (acc ++ [b]).length = 15 := by simp [h14]
      rw [hlp] at htd
      rw [htd]
      have hpl : acc.length + (b :: rest).length = 15 + (List.length ([] : List Nat) + rest.length) := by
        simp [h14]
        omega
      rw [hpl, padLen_add_15]
      simp [List.append_assoc]
    · rw [if_neg h14]
      rw [ih (acc ++ [b]) (by simp; omega) hdig hrest]
      have hc : (acc ++ [b]).length + rest.length = acc.length + (b :: rest).length := by
        simp
        omega
      rw [hc]
      simp [List.append_assoc]

theorem mem_finalChunk_ge (acc : List Nat) :
    ∀ c ∈ finalChunk acc, 0x40000 ≤ c := by
  intro c hc
  unfold finalChunk at hc
  split at hc
  · simp at hc
  · split at hc <;> simp only [List.mem_singleton] at hc <;> subst hc
    · unfold cp7; omega
    · unfold cp15; omega

theorem mem_encAgo_ge (input : List Nat) : ∀ acc : List Nat,
    ∀ c ∈ encAgo acc input, 0x40000 ≤ c := by
  induction input with
  | nil =>
    intro acc c hc
    exact mem_finalChunk_ge acc c hc
  | cons b rest ih =>
    intro acc c hc
    simp only [encAgo] at hc
    split at hc
    · simp only [List.mem_cons] at hc
      rcases hc with rfl | hc
      · unfold cp15; omega
      · exact ih [] c hc
    · exact ih (acc ++ [b]) c hc

theorem encAgo_head (input : List Nat) : ∀ acc : List Nat, acc.length ≤ 14 →
    (∀ d ∈ acc, d < 2) → (∀ d ∈ input, d < 2) → acc ++ input ≠ [] →
    ∃ c cs, encAgo acc input = c :: cs ∧ c % 256 ≠ 0 := by
  induction input with
  | nil =>
    intro acc hlen hacc _ hne
    simp only [List.append_nil] at hne
    simp only [encAgo, finalChunk]
    rw [if_neg hne]
    by_cases h7 : acc.length ≤ 7
    · rw [if_pos h7]
      have hv : ofDigits 2 (padTo 7 acc) < 128 := by
        have := ofDigits_lt 2 (padTo 7 acc) (by omega) (mem_padTo_lt 7 acc hacc)
        rwa [length_padTo 7 acc h7] at this
      exact ⟨_, [], rfl, cp7_mod _ hv⟩
    · rw [if_neg h7]
      refine ⟨_, [], rfl, ?_⟩
      rw [cp15_mod]
      omega
  | cons b rest ih =>
    intro acc hlen hacc hin hne
    have hb : b < 2 := hin b (by simp)
    have hrest : ∀ d ∈ rest, d < 2 := fun d hd => hin d (by simp [hd])
    have hdig : ∀ d ∈ acc ++ [b], d < 2 := by
      intro d hd
      rcases List.mem_append.mp hd with hd | hd
      · exact hacc d hd
      · simp at hd; omega
    simp only [encAgo]
    by_cases h14 : acc.length = 14
    · rw [if_pos h14]
      refine ⟨_, _, rfl, ?_⟩
      rw [cp15_mod]
      omega
    · rw [if_neg h14]
      exact ih (acc ++ [b]) (by simp; omega) hdig hrest (by simp)

/-! ## Bit reassembly lemmas -/

theorem bitsToBytesGo_small (extra : List Nat) : ∀ acc : List Nat,
    acc.length + extra.length < 8 → bitsToBytesGo acc extra = [] := by
  induction extra with
  | nil => intro acc _; rfl
  | cons b rest ih =>
    intro acc hlen
    simp only [List.length_cons] at hlen
    simp only [bitsToBytesGo]
    rw [if_neg (by omega)]
    exact ih (acc ++ [b]) (by simp; omega)

theorem bitsToBytesGo_fill (chunk : List Nat) : ∀ (acc rest : List Nat),
    chunk ≠ [] → acc.length + chunk.length = 8 →
    bitsToBytesGo acc (chunk ++ rest) =
      ofDigits 2 (acc ++ chunk) :: bitsToBytesGo [] rest := by
  induction chunk with
  | nil => intro acc rest hne _; exact absurd rfl hne
  | cons c cs ih =>
    intro acc rest _ hlen
    simp only [List.length_cons] at hlen
    simp only [List.cons_append, bitsToBytesGo, List.append_eq]
    by_cases hcs : cs = []
    · subst hcs
      simp only [List.length_nil] at hlen
      rw [if_pos (by omega)]
      simp
    · have hcsl : 0 < cs.length := List.length_pos.mpr hcs
      rw [if_neg (by omega)]
      rw [ih (acc ++ [c]) rest hcs (by simp; omega)]
      simp [List.append_assoc]

theorem mem_bytesToBits_lt (bytes : List Nat) : ∀ d ∈ bytesToBits bytes, d < 2 := by
  induction bytes with
  | nil => simp [bytesToBits]
  | cons b bs ih =>
    intro d hd
    simp only [bytesToBits, List.mem_append] at hd
    rcases hd with hd | hd
    · exact mem_toDigits_lt 2 8 b d (by omega) hd
    · exact ih d hd

theorem length_bytesToBits (bytes : List Nat) :
    (bytesToBits bytes).length = 8 * bytes.length := by
  induction bytes with
  | nil => rfl
  | cons b bs ih =>
    simp only [bytesToBits, List.length_append, length_toDigits, ih, List.length_cons]
    ring

theorem bitsToBytes_bytesToBits (bytes : List Nat) (extra : List Nat)
    (h : ∀ b ∈ bytes, b < 256) (hextra : extra.length < 8) :
    bitsToBytes (bytesToBits bytes ++ extra) = bytes := by
  induction bytes with
  | nil =>
    simp only [bytesToBits, List.nil_append, bitsToBytes]
    exact bitsToBytesGo_small extra [] (by simpa using hextra)
  | cons b bs ih =>
    have hb : b < 256 := h b (by simp)
    simp only [bytesToBits, List.append_assoc, bitsToBytes]
    rw [bitsToBytesGo_fill (toDigits 2 8 b) [] (bytesToBits bs ++ extra)
        (by intro hx; have := length_toDigits 2 8 b; rw [hx] at this; simp at this)
        (by simp [length_toDigits])]
    rw [List.nil_append]
    have hof : ofDigits 2 (toDigits 2 8 b) = b := by
      rw [ofDigits_toDigits]
      exact Nat.mod_eq_of_lt (by norm_num; omega)
    rw [hof]
    have := ih (fun x hx => h x (by simp [hx]))
    simpa [bitsToBytes] using this

/-! ## Token extraction and URL-decoding lemmas -/

theorem urlDecode_cons_ne (c : Nat) (rest : List Nat) (hc : c ≠ 37) :
    urlDecode (c :: rest) = (urlDecode rest).map (fun l => c :: l) := by
  match rest with
  | [] => simp [urlDecode, hc]
  | [a] => simp [urlDecode, hc]
  | a :: b :: r => simp [urlDecode, hc]

theorem urlDecode_id (l : List Nat) (h : ∀ c ∈ l, 256 ≤ c) :
    urlDecode l = some l := by
  induction l with
  | nil => rfl
  | cons c rest ih =>
    have hc : 256 ≤ c := h c (by simp)
    rw [urlDecode_cons_ne c rest (by omega)]
    rw [ih (fun x hx => h x (by simp [hx]))]
    rfl

theorem tokenOf_id (l : List Nat) (h : ∀ c ∈ l, 256 ≤ c) :
    tokenOf l = some l := by
  unfold tokenOf
  rw [urlDecode_id l h]
  have h47 : (47 : Nat) ∉ l := fun hm => by have := h 47 hm; omega
  simp [h47]

theorem takeWhile_dropWhile_slash (l : List Nat) (h : 47 ∈ l) :
    l.takeWhile (fun c => c ≠ 47) ++ 47 :: (l.dropWhile (fun c => c ≠ 47)).tail = l := by
  induction l with
  | nil => simp at h
  | cons a t ih =>
    by_cases ha : a = 47
    · subst ha
      simp [List.takeWhile_cons, List.dropWhile_cons]
    · have ht : 47 ∈ t := by
        rcases List.mem_cons.mp h with h1 | h1
        · omega
        · exact h1
      simp only [List.takeWhile_cons, List.dropWhile_cons]
      have hd : (decide (a ≠ 47)) = true := by simp [ha]
      rw [hd]
      simp only [if_true]
      rw [List.cons_append, ih ht]

theorem mem_afterLastSlash (l : List Nat) : (47 : Nat) ∉ afterLastSlash l := by
  unfold afterLastSlash
  intro hm
  rw [List.mem_reverse] at hm
  have := List.mem_takeWhile_imp hm
  simp at this

theorem afterLastSlash_spec (l : List Nat) (h : 47 ∈ l) :
    ∃ pre, l = pre ++ 47 :: afterLastSlash l := by
  have hrev : 47 ∈ l.reverse := List.mem_reverse.mpr h
  have hsplit := takeWhile_dropWhile_slash l.reverse hrev
  refine ⟨((l.reverse.dropWhile (fun c => c ≠ 47)).tail).reverse, ?_⟩
  conv_lhs => rw [← List.reverse_reverse l, ← hsplit]
  rw [List.reverse_append, List.reverse_cons, List.append_assoc]
  unfold afterLastSlash
  simp

/-! ## Envelope and pipeline lemmas -/

theorem parseEnvelope_b (id : Nat) (tag body : List Nat) (htag : tag.length = 20) :
    parseEnvelope .base65536 (id :: (tag ++ body)) = .ok (id, (tag, body)) := by
  have h1 : (id :: (tag ++ body)).drop 1 = tag ++ body := rfl
  have h21 : (id :: (tag ++ body)).drop 21 = (tag ++ body).drop 20 := rfl
  simp only [parseEnvelope]
  rw [if_neg (by simp only [List.length_cons, List.length_append, htag]; omega)]
  rw [h1, h21, List.take_left' htag, List.drop_left' htag]
  rfl

theorem parseEnvelope_a (id m : Nat) (tag body : List Nat) (htag : tag.length = 20) :
    parseEnvelope .base32768 (id :: m :: (tag ++ body)) = .ok (id, (tag, body)) := by
  have h2 : (id :: m :: (tag ++ body)).drop 2 = tag ++ body := rfl
  have h22 : (id :: m :: (tag ++ body)).drop 22 = (tag ++ body).drop 20 := rfl
  simp only [parseEnvelope]
  rw [if_neg (by simp only [List.length_cons, List.length_append, htag]; omega)]
  rw [h2, h22, List.take_left' htag, List.drop_left' htag]
  rfl

theorem decodeTop_encB0 (tag body : List Nat) (htag20 : tag.length = 20)
    (htag : ∀ d ∈ tag, d < 256) (hbody : ∀ d ∈ body, d < 256) :
    decodeTop (encB (0 :: (tag ++ body))) =
      match parsePayload 0 body with
      | .error e => .error e
      | .ok d => .ok (.base65536, d) := by
  have hall : ∀ d ∈ (0 :: (tag ++ body)), d < 256 := by
    intro d hd
    rcases List.mem_cons.mp hd with rfl | hd
    · omega
    · rcases List.mem_append.mp hd with hd | hd
      · exact htag d hd
      · exact hbody d hd
  have htok : tokenOf (encB (0 :: (tag ++ body))) = some (encB (0 :: (tag ++ body))) :=
    tokenOf_id _ (fun c hc => by have := (mem_encB_range _ hall c hc).1; omega)
  obtain ⟨c, cs, henc, hc0⟩ := encB_head 0 (tag ++ body) (by omega)
  have hdet : detectScheme (encB (0 :: (tag ++ body))) = some .base65536 := by
    rw [henc]
    unfold detectScheme
    simp [hc0]
  have hbin : decodeBin .base65536 (0 :: (tag ++ body)) =
      match parsePayload 0 body with
      | .error e => .error e
      | .ok d => .ok (0, body, d) := by
    unfold decodeBin
    rw [parseEnvelope_b 0 tag body htag20]
  calc decodeTop (encB (0 :: (tag ++ body)))
      = decodeToken (encB (0 :: (tag ++ body))) := by
        rw [decodeTop, htok]
    _ = decodeWith .base65536 (encB (0 :: (tag ++ body))) := by
        rw [decodeToken, hdet]
    _ = (match decodeBin .base65536 (0 :: (tag ++ body)) with
         | .error e => .error e
         | .ok r => .ok (.base65536, r.2.2)) := by
        rw [decodeWith, decB_encB _ hall]
    _ = (match parsePayload 0 body with
         | .error e => .error e
         | .ok d => .ok (.base65536, d)) := by
        rw [hbin]
        cases parsePayload 0 body <;> rfl

theorem decodeTop_encA (id : Nat) (tag body : List Nat) (hid : id < 256)
    (htag20 : tag.length = 20) (htag : ∀ d ∈ tag, d < 256)
    (hbody : ∀ d ∈ body, d < 256) :
    decodeTop (encA (id :: 255 :: (tag ++ body))) =
      match parsePayload id body with
      | .error e => .error e
      | .ok d => .ok (.base32768, d) := by
  have hall : ∀ d ∈ (id :: 255 :: (tag ++ body)), d < 256 := by
    intro d hd
    rcases List.mem_cons.mp hd with rfl | hd
    · omega
    · rcases List.mem_cons.mp hd with rfl | hd
      · omega
      · rcases List.mem_append.mp hd with hd | hd
        · exact htag d hd
        · exact hbody d hd
  have hbits : ∀ d ∈ bytesToBits (id :: 255 :: (tag ++ body)), d < 2 :=
    mem_bytesToBits_lt _
  have hne : ([] : List Nat) ++ bytesToBits (id :: 255 :: (tag ++ body)) ≠ [] := by
    simp only [List.nil_append]
    intro hx
    have := length_bytesToBits (id :: 255 :: (tag ++ body))
    rw [hx] at this
    simp at this
  have htok : tokenOf (encA (id :: 255 :: (tag ++ body))) =
      some (encA (id :: 255 :: (tag ++ body))) :=
    tokenOf_id _ (fun c hc => by have := mem_encAgo_ge _ [] c hc; omega)
  obtain ⟨c, cs, henc, hc0⟩ :=
    encAgo_head (bytesToBits (id :: 255 :: (tag ++ body))) [] (by simp) (by simp) hbits hne
  have hdet : detectScheme (encA (id :: 255 :: (tag ++ body))) = some .base32768 := by
    unfold encA
    rw [henc]
    unfold detectScheme
    simp [hc0]
  have hdecA : textDecodeA (encA (id :: 255 :: (tag ++ body))) =
      some (id :: 255 :: (tag ++ body)) := by
    unfold textDecodeA encA
    rw [decA_encAgo _ [] (by simp) (by simp) hbits]
    simp only [Option.map_some', List.nil_append]
    rw [bitsToBytes_bytesToBits _ _ hall (by simp [padLen_lt_8])]
  have hbin : decodeBin .base32768 (id :: 255 :: (tag ++ body)) =
      match parsePayload id body with
      | .error e => .error e
      | .ok d => .ok (id, body, d) := by
    unfold decodeBin
    rw [parseEnvelope_a id 255 tag body htag20]
  calc decodeTop (encA (id :: 255 :: (tag ++ body)))
      = decodeToken (encA (id :: 255 :: (tag ++ body))) := by
        rw [decodeTop, htok]
    _ = decodeWith .base32768 (encA (id :: 255 :: (tag ++ body))) := by
        rw [decodeToken, hdet]
    _ = (match decodeBin .base32768 (id :: 255 :: (tag ++ body)) with
         | .error e => .error e
         | .ok r => .ok (.base32768, r.2.2)) := by
        rw [decodeWith, hdecA]
    _ = (match parsePayload id body with
         | .error e => .error e
         | .ok d => .ok (.base32768, d)) := by
        rw [hbin]
        cases parsePayload id body <;> rfl

/-- C1: for every valid record, key (the empty key included) and scheme
permitted for the record's shape (Scheme B only for the quake shape), the
string produced by `encode` decodes back to a record equal field for field:
same time, same optional epicenter, every named bucket holding the same
codes in the same order, empty buckets recovered as (present) empty buckets. -/
theorem c1_round_trip (k : List Nat) :
    (∀ (enc : Encoding) (r : V0Payload) (out : List Nat),
        validV0 r → encodeTop enc k (.v0 r) = .ok out →
        decodeTop out = .ok (enc, .quake
          { time := r.time, epicenter := r.epicenter,
            one := some ⟨r.one⟩, two := some ⟨r.two⟩, three := some ⟨r.three⟩,
            four := some ⟨r.four⟩, five_minus := some ⟨r.five_minus⟩,
            five_plus := some ⟨r.five_plus⟩, six_minus := some ⟨r.six_minus⟩,
            six_plus := some ⟨r.six_plus⟩, seven := some ⟨r.seven⟩ })) ∧
    (∀ (t : TsunamiPayload) (out : List Nat),
        validTsunamiPayload t → encodeTop .base32768 k (.tsunami t) = .ok out →
        decodeTop out = .ok (.base32768, .tsunami
          { time := t.time, epicenter := t.epicenter,
            forecast := some ⟨t.forecast⟩, advisory := some ⟨t.advisory⟩,
            warning := some ⟨t.warning⟩, major_warning := some ⟨t.major_warning⟩ })) := by
  constructor
  · intro enc r out hval heq
    unfold validV0 at hval
    have hbody : ∀ d ∈ serializeQuake (toQuakeData r), d < 256 :=
      fun d hd => mem_serializeQuake_lt _ d hd
    have hpp : parsePayload 0 (serializeQuake (toQuakeData r)) =
        .ok (.quake (toQuakeData r)) := by
      unfold parsePayload
      rw [parseQuake_spec _ hval]
    cases enc with
    | base65536 =>
      have henc : encodeTop .base65536 k (.v0 r) =
          .ok (encB (0 :: (hmacSha1 k (serializeQuake (toQuakeData r)) ++
            serializeQuake (toQuakeData r)))) := rfl
      rw [henc] at heq
      injection heq with hout
      rw [← hout]
      rw [decodeTop_encB0 _ _ (length_hmacSha1 _ _)
        (fun d hd => mem_hmacSha1_lt _ _ d hd) hbody]
      rw [hpp]
      rfl
    | base32768 =>
      have henc : encodeTop .base32768 k (.v0 r) =
          .ok (encA (0 :: 255 :: (hmacSha1 k (serializeQuake (toQuakeData r)) ++
            serializeQuake (toQuakeData r)))) := rfl
      rw [henc] at heq
      injection heq with hout
      rw [← hout]
      rw [decodeTop_encA 0 _ _ (by omega) (length_hmacSha1 _ _)
        (fun d hd => mem_hmacSha1_lt _ _ d hd) hbody]
      rw [hpp]
      rfl
  · intro t out hval heq
    unfold validTsunamiPayload at hval
    have hbody : ∀ d ∈ serializeTsunami (toTsunamiData t), d < 256 :=
      fun d hd => mem_serializeTsunami_lt _ d hd
    have hpp : parsePayload 1 (serializeTsunami (toTsunamiData t)) =
        .ok (.tsunami (toTsunamiData t)) := by
      unfold parsePayload
      rw [parseTsunami_spec _ hval]
    have henc : encodeTop .base32768 k (.tsunami t) =
        .ok (encA (1 :: 255 :: (hmacSha1 k (serializeTsunami (toTsunamiData t)) ++
          serializeTsunami (toTsunamiData t)))) := rfl
    rw [henc] at heq
    injection heq with hout
    rw [← hout]
    rw [decodeTop_encA 1 _ _ (by omega) (length_hmacSha1 _ _)
      (fun d hd => mem_hmacSha1_lt _ _ d hd) hbody]
    rw [hpp]
    rfl

theorem c1_round_trip_witness :
    validV0 sampleV0 ∧
    decodeTop sampleEncoded = .ok (.base65536, .quake
      { time := sampleV0.time, epicenter := sampleV0.epicenter,
        one := some ⟨sampleV0.one⟩, two := some ⟨sampleV0.two⟩,
        three := some ⟨sampleV0.three⟩, four := some ⟨sampleV0.four⟩,
        five_minus := some ⟨sampleV0.five_minus⟩, five_plus := some ⟨sampleV0.five_plus⟩,
        six_minus := some ⟨sampleV0.six_minus⟩, six_plus := some ⟨sampleV0.six_plus⟩,
        seven := some ⟨sampleV0.seven⟩ }) :=
  ⟨by decide, (c1_round_trip sampleKey).1 .base65536 sampleV0 sampleEncoded
    (by decide) (by rfl)⟩

/-! ## Claim C2: envelope layout -/

/-- C2: the envelope is exactly the type id byte, then the 0xFF marker byte
if and only if the scheme is base32768 (Scheme A), then the 20-byte tag,
then the body unchanged; a base65536 (Scheme B) envelope inserts no marker
byte. -/
theorem c2_envelope_layout (id : Nat) (tag body : List Nat) :
    buildEnvelope .base32768 id tag body = id :: 0xFF :: (tag ++ body) ∧
    buildEnvelope .base65536 id tag body = id :: (tag ++ body) :=
  ⟨rfl, rfl⟩

/-! ## Claim C3: scheme detection -/

/-- C3 counterexample: the byte sequence `[1]` encoded under Scheme B
(base65536) is classified by the decoder's first-character heuristic as
Scheme A (base32768), and the empty byte sequence encodes under either
scheme to the empty string, on which detection fails outright (no first
character), so detection does not succeed and return the encoding scheme
for every byte sequence. -/
theorem c3_detection_counterexample :
    (detectScheme (encB [1]) ≠ some Encoding.base65536 ∧
     detectScheme (encB [1]) = some Encoding.base32768) ∧
    (encB [] = [] ∧ detectScheme (encB []) = none) ∧
    (encA [] = [] ∧ detectScheme (encA []) = none) := by decide

/-- C3 amended: detection recovers the scheme for every nonempty byte
sequence under Scheme A, and under Scheme B exactly when the first byte is
zero (as holds for every envelope Scheme B is permitted for, since the
base65536 gate restricts it to type id 0): a Scheme B encoding of a
sequence with nonzero first byte is classified as Scheme A, and the empty
encoding of the empty sequence makes detection fail under either scheme. -/
theorem c3_detection_amended (b : Nat) (bytes : List Nat) (hb : b < 256)
    (hbytes : ∀ d ∈ bytes, d < 256) :
    detectScheme (encA (b :: bytes)) = some Encoding.base32768 ∧
    (b = 0 → detectScheme (encB (b :: bytes)) = some Encoding.base65536) ∧
    (b ≠ 0 → detectScheme (encB (b :: bytes)) = some Encoding.base32768) ∧
    detectScheme (encB []) = none ∧
    detectScheme (encA []) = none := by
  refine ⟨?_, ?_, ?_, rfl, rfl⟩
  · have hbits : ∀ d ∈ bytesToBits (b :: bytes), d < 2 := mem_bytesToBits_lt _
    have hne : ([] : List Nat) ++ bytesToBits (b :: bytes) ≠ [] := by
      simp only [List.nil_append]
      intro hx
      have := length_bytesToBits (b :: bytes)
      rw [hx] at this
      simp at this
    obtain ⟨c, cs, henc, hc0⟩ :=
      encAgo_head (bytesToBits (b :: bytes)) [] (by simp) (by simp) hbits hne
    unfold encA
    rw [henc]
    unfold detectScheme
    simp [hc0]
  · intro hb0
    subst hb0
    obtain ⟨c, cs, henc, hc0⟩ := encB_head 0 bytes (by omega)
    rw [henc]
    unfold detectScheme
    simp [hc0]
  · intro hb0
    obtain ⟨c, cs, henc, hc0⟩ := encB_head b bytes hb
    rw [henc]
    unfold detectScheme
    simp only [List.head?_cons, Option.map_some', Option.some.injEq]
    rw [if_neg (by omega)]

theorem c3_detection_amended_witness :
    (detectScheme (encA (0 :: [5])) = some Encoding.base32768 ∧
     (0 = 0 → detectScheme (encB (0 :: [5])) = some Encoding.base65536) ∧
     ((0 : Nat) ≠ 0 → detectScheme (encB (0 :: [5])) = some Encoding.base32768) ∧
     detectScheme (encB []) = none ∧
     detectScheme (encA []) = none) ∧
    detectScheme (encB (1 :: [5])) = some Encoding.base32768 :=
  ⟨c3_detection_amended 0 [5] (by decide) (by decide),
   (c3_detection_amended 1 [5] (by decide) (by decide)).2.2.1 (by decide)⟩

/-! ## Claim C4: envelope length boundary -/

/-- C4: fewer than 21 bytes (base65536) or 22 bytes (base32768) fail with
the too-short envelope error; at exactly 21 / 22 bytes envelope parsing
succeeds handing an empty body onward, and payload parsing of the empty
body then fails at the payload layer for both supported type ids. -/
theorem c4_envelope_boundary (bin : List Nat) :
    (bin.length < 21 →
      parseEnvelope .base65536 bin = .error (.envelopeTooShort .base65536)) ∧
    (bin.length < 22 →
      parseEnvelope .base32768 bin = .error (.envelopeTooShort .base32768)) ∧
    (bin.length = 21 →
      parseEnvelope .base65536 bin = .ok (bin.headD 0, ((bin.drop 1).take 20, [])) ∧
      parsePayload 0 [] = .error .malformedPayloadPanic ∧
      parsePayload 1 [] = .error .malformedPayloadPanic) ∧
    (bin.length = 22 →
      parseEnvelope .base32768 bin = .ok (bin.headD 0, ((bin.drop 2).take 20, []))) := by
  refine ⟨?_, ?_, ?_, ?_⟩
  · intro h
    simp only [parseEnvelope]
    rw [if_pos h]
  · intro h
    simp only [parseEnvelope]
    rw [if_pos h]
  · intro h
    refine ⟨?_, rfl, rfl⟩
    simp only [parseEnvelope]
    rw [if_neg (by omega), List.drop_eq_nil_of_le (by omega : bin.length ≤ 21)]
  · intro h
    simp only [parseEnvelope]
    rw [if_neg (by omega), List.drop_eq_nil_of_le (by omega : bin.length ≤ 22)]

theorem c4_envelope_boundary_witness :
    parseEnvelope .base65536 (List.replicate 20 0) =
      .error (.envelopeTooShort .base65536) ∧
    parseEnvelope .base32768 (List.replicate 21 0) =
      .error (.envelopeTooShort .base32768) ∧
    (parseEnvelope .base65536 (List.replicate 21 0) =
      .ok ((List.replicate 21 (0 : Nat)).headD 0,
        (((List.replicate 21 (0 : Nat)).drop 1).take 20, [])) ∧
      parsePayload 0 [] = .error .malformedPayloadPanic ∧
      parsePayload 1 [] = .error .malformedPayloadPanic) ∧
    parseEnvelope .base32768 (List.replicate 22 0) =
      .ok ((List.replicate 22 (0 : Nat)).headD 0,
        (((List.replicate 22 (0 : Nat)).drop 2).take 20, [])) :=
  ⟨(c4_envelope_boundary _).1 (by decide),
   (c4_envelope_boundary _).2.1 (by decide),
   (c4_envelope_boundary _).2.2.1 (by decide),
   (c4_envelope_boundary _).2.2.2 (by decide)⟩

/-! ## Claim C5: scheme/payload gate -/

/-- C5: encoding a tsunami payload with base65536 (Scheme B) fails with the
unsupported-pairing error and produces no output, while a quake payload
encodes under either scheme and a tsunami payload encodes under base32768
(Scheme A). -/
theorem c5_scheme_gate (k : List Nat) (t : TsunamiPayload) (r : V0Payload) :
    encodeTop .base65536 k (.tsunami t) = .error .unsupportedSchemeForPayload ∧
    (encodeTop .base65536 k (.v0 r)).isOk = true ∧
    (encodeTop .base32768 k (.v0 r)).isOk = true ∧
    (encodeTop .base32768 k (.tsunami t)).isOk = true :=
  ⟨rfl, rfl, rfl, rfl⟩

/-! ## Claim C6: tag computation -/

/-- C6: for every key (the empty key included) the tag placed in the
envelope is the 20-byte keyed digest of the key over the serialized payload
body bytes only — the function computing it takes no type id or marker
input, and under both schemes the 20 envelope bytes after the header equal
it exactly; the computation is total and 20 bytes long for every key. -/
theorem c6_tag_over_body_only (k : List Nat) (p : Payload) :
    (∀ key body : List Nat, (hmacSha1 key body).length = 20) ∧
    (((buildEnvelope .base32768 (typeIdOf p) (hmacSha1 k (bodyOf p)) (bodyOf p)).drop 2).take 20 =
      hmacSha1 k (bodyOf p)) ∧
    (((buildEnvelope .base65536 (typeIdOf p) (hmacSha1 k (bodyOf p)) (bodyOf p)).drop 1).take 20 =
      hmacSha1 k (bodyOf p)) := by
  refine ⟨length_hmacSha1, ?_, ?_⟩
  · have h2 : (buildEnvelope .base32768 (typeIdOf p) (hmacSha1 k (bodyOf p)) (bodyOf p)).drop 2 =
        hmacSha1 k (bodyOf p) ++ bodyOf p := rfl
    rw [h2]
    exact List.take_left' (length_hmacSha1 _ _)
  · have h1 : (buildEnvelope .base65536 (typeIdOf p) (hmacSha1 k (bodyOf p)) (bodyOf p)).drop 1 =
        hmacSha1 k (bodyOf p) ++ bodyOf p := rfl
    rw [h1]
    exact List.take_left' (length_hmacSha1 _ _)

/-! ## Claim C7: decode ignores tag and marker values -/

/-- C7: for well-formed envelopes the whole decode result (recovered type
id, body bytes and record) is unchanged when the 20 tag bytes are replaced
by any other 20 bytes and, under the marker scheme, when the marker byte is
replaced by any other byte: the tag is never verified and the marker's
value is never inspected. -/
theorem c7_tamper_independence (id m m2 : Nat) (tag tag2 body : List Nat)
    (htag : tag.length = 20) (htag2 : tag2.length = 20) :
    decodeBin .base32768 (id :: m :: (tag ++ body)) =
      decodeBin .base32768 (id :: m2 :: (tag2 ++ body)) ∧
    decodeBin .base65536 (id :: (tag ++ body)) =
      decodeBin .base65536 (id :: (tag2 ++ body)) := by
  constructor
  · unfold decodeBin
    rw [parseEnvelope_a id m tag body htag, parseEnvelope_a id m2 tag2 body htag2]
  · unfold decodeBin
    rw [parseEnvelope_b id tag body htag, parseEnvelope_b id tag2 body htag2]

theorem c7_tamper_independence_witness :
    decodeBin .base32768 (0 :: 255 :: (List.replicate 20 0 ++ [])) =
      decodeBin .base32768 (0 :: 7 :: (List.replicate 20 9 ++ [])) ∧
    decodeBin .base65536 (0 :: (List.replicate 20 0 ++ [])) =
      decodeBin .base65536 (0 :: (List.replicate 20 9 ++ [])) :=
  c7_tamper_independence 0 255 7 (List.replicate 20 0) (List.replicate 20 9) []
    (by decide) (by decide)

/-- C8 (code bug, spec section 9): the reconstructor renders the
five-minus, five-plus, six-minus, six-plus and seven buckets from field
`four` (`src/main.rs` lines 371-399), so for a record whose `five_minus`
holds `[99]` and whose `four` is empty it renders no five-minus argument at
all, and re-running the rendered invocation would not re-produce the same
encoded output. -/
theorem c8_bucket_aliasing :
    reconstructV0 sampleAliased = [] ∧
    reconstructV0Spec sampleAliased = [("--five-minus", 99)] ∧
    reconstructV0 sampleAliased ≠ reconstructV0Spec sampleAliased := by decide

/-! ## Claim C9: payload error reporting -/

/-- C9 counterexample: payload bytes that parse as no record make decode
abort through the `.expect` panic (modelled by `malformedPayloadPanic`),
not through a typed, reported `MalformedPayload` failure. -/
theorem c9_malformed_counterexample :
    parsePayload 0 [7] = .error .malformedPayloadPanic ∧
    parsePayload 1 [7] = .error .malformedPayloadPanic := by decide

/-- C9 amended: every type id other than 0 and 1 is reported as a typed
unsupported-type-id failure; bytes that do not parse as a record for type
id 0 or 1 abort decode through the expect panic rather than a typed
reported failure. -/
theorem c9_payload_errors (body : List Nat) :
    (parseQuake body = none → parsePayload 0 body = .error .malformedPayloadPanic) ∧
    (parseTsunami body = none → parsePayload 1 body = .error .malformedPayloadPanic) ∧
    (∀ n, 2 ≤ n → parsePayload n body = .error (.unsupportedTypeId n)) := by
  refine ⟨?_, ?_, ?_⟩
  · intro h
    unfold parsePayload
    rw [h]
  · intro h
    unfold parsePayload
    rw [h]
  · intro n hn
    match n, hn with
    | n + 2, _ => rfl

theorem c9_payload_errors_witness :
    parsePayload 0 [9] = .error .malformedPayloadPanic ∧
    parsePayload 1 [9] = .error .malformedPayloadPanic ∧
    parsePayload 5 [9] = .error (.unsupportedTypeId 5) :=
  ⟨(c9_payload_errors [9]).1 (by decide),
   (c9_payload_errors [9]).2.1 (by decide),
   (c9_payload_errors [9]).2.2 5 (by decide)⟩

/-! ## Claim C10: token extraction -/

/-- C10 counterexample: the input string `%41` URL-decodes to `A` and
contains no path separator; the token handed onward is the raw input
`%41`, not the URL-decoded input `A`. -/
theorem c10_token_counterexample :
    urlDecode [37, 52, 49] = some [65] ∧
    tokenOf [37, 52, 49] = some [37, 52, 49] ∧
    tokenOf [37, 52, 49] ≠ some [65] := by decide

/-- C10 amended: when the URL-decoded input contains a path separator the
token is its substring after the last separator (which contains no further
separator); when it contains none, the token is the whole original raw
input, not the URL-decoded input. -/
theorem c10_token_amended (url dec : List Nat) (h : urlDecode url = some dec) :
    ((47 : Nat) ∈ dec →
      tokenOf url = some (afterLastSlash dec) ∧
      (∃ pre, dec = pre ++ 47 :: afterLastSlash dec) ∧
      (47 : Nat) ∉ afterLastSlash dec) ∧
    ((47 : Nat) ∉ dec → tokenOf url = some url) := by
  constructor
  · intro hm
    refine ⟨?_, afterLastSlash_spec dec hm, mem_afterLastSlash dec⟩
    unfold tokenOf
    rw [h]
    simp [hm]
  · intro hm
    unfold tokenOf
    rw [h]
    simp [hm]

theorem c10_token_amended_witness :
    tokenOf [47, 65] = some (afterLastSlash [47, 65]) ∧
    tokenOf [66] = some [66] :=
  ⟨((c10_token_amended [47, 65] [47, 65] (by decide)).1 (by decide)).1,
   (c10_token_amended [66] [66] (by decide)).2 (by decide)⟩
